import Mathlib

/-!
Verification development for the inFlow inventory CLI's caching/indexing core
(`scripts/mcp-client.ts`, `scripts/cli.ts`).

JavaScript strings are embedded as lists of UTF-16 code points (`List Nat`).
All definitions are executable; proofs are by induction and `decide` on
concrete inputs.
-/

/-- a JavaScript string, as its list of UTF-16 code points. -/
abbrev JStr := List Nat

/-- code-point image of `String.prototype.toUpperCase` restricted to ASCII:
lowercase letters (97..122) map to uppercase (65..90); all else is fixed. -/
def jsToUpperChar (c : Nat) : Nat :=
  if 97 ≤ c ∧ c ≤ 122 then c - 32 else c

/-- whitespace recognized by `String.prototype.trim` (ASCII portion:
tab, LF, VT, FF, CR, space). -/
def isJsWhitespace (c : Nat) : Bool :=
  decide (c = 9 ∨ c = 10 ∨ c = 11 ∨ c = 12 ∨ c = 13 ∨ c = 32)

/-- drop elements satisfying `p` from both ends of a list. -/
def trimBy (p : α → Bool) (l : List α) : List α :=
  ((l.dropWhile p).reverse.dropWhile p).reverse

/-- embedding of `s.trim()`: drop whitespace from both ends. -/
def jsTrim (s : JStr) : JStr :=
  trimBy isJsWhitespace s

/-- embedding of `s.toUpperCase()` (ASCII). -/
def jsToUpper (s : JStr) : JStr :=
  s.map jsToUpperChar

/-- `serial.trim().toUpperCase()` — the normalization applied by
`buildSerialIndex`, `searchSerial` and `searchSerialByProduct`
(mcp-client.ts:1038, 1091, 1269). -/
def normalizeSerial (s : JStr) : JStr :=
  jsToUpper (jsTrim s)

theorem jsToUpperChar_idem (c : Nat) :
    jsToUpperChar (jsToUpperChar c) = jsToUpperChar c := by
  unfold jsToUpperChar
  by_cases h : 97 ≤ c ∧ c ≤ 122
  · rw [if_pos h, if_neg (by omega : ¬(97 ≤ c - 32 ∧ c - 32 ≤ 122))]
  · rw [if_neg h, if_neg h]

theorem isJsWhitespace_jsToUpperChar (c : Nat) :
    isJsWhitespace (jsToUpperChar c) = isJsWhitespace c := by
  unfold jsToUpperChar isJsWhitespace
  by_cases h : 97 ≤ c ∧ c ≤ 122
  · rw [if_pos h, decide_eq_decide]
    omega
  · rw [if_neg h]

theorem dropWhile_dropWhile (p : α → Bool) (l : List α) :
    List.dropWhile p (List.dropWhile p l) = List.dropWhile p l := by
  induction l with
  | nil => simp
  | cons a l ih =>
    by_cases h : p a = true
    · simpa [List.dropWhile, h] using ih
    · simp [List.dropWhile, h]

theorem dropWhile_head_false (p : α → Bool) (l : List α) (a : α)
    (h : (List.dropWhile p l).head? = some a) : p a = false := by
  induction l with
  | nil => simp [List.dropWhile] at h
  | cons b l ih =>
    by_cases hb : p b = true
    · exact ih (by simpa [List.dropWhile, hb] using h)
    · simp [List.dropWhile, hb] at h
      subst h
      simpa using hb

theorem dropWhile_eq_self_of_head (p : α → Bool) (l : List α)
    (h : ∀ a, l.head? = some a → p a = false) : List.dropWhile p l = l := by
  cases l with
  | nil => simp
  | cons a l => simp [List.dropWhile, h a rfl]

theorem exists_append_dropWhile (p : α → Bool) (l : List α) :
    ∃ t, t ++ List.dropWhile p l = l := by
  induction l with
  | nil => exact ⟨[], rfl⟩
  | cons a l ih =>
    by_cases h : p a = true
    · obtain ⟨t, ht⟩ := ih
      exact ⟨a :: t, by simp [List.dropWhile, h, ht]⟩
    · exact ⟨[], by simp [List.dropWhile, h]⟩

theorem head?_append_left (l r : List α) (h : l ≠ []) :
    (l ++ r).head? = l.head? := by
  cases l with
  | nil => exact absurd rfl h
  | cons a l => simp

theorem trimBy_idem (p : α → Bool) (l : List α) :
    trimBy p (trimBy p l) = trimBy p l := by
  have hhead2 : ∀ a, ((l.dropWhile p).reverse.dropWhile p).head? = some a →
      p a = false :=
    fun a ha => dropWhile_head_false p (l.dropWhile p).reverse a ha
  have hhead1 : ∀ a,
      ((l.dropWhile p).reverse.dropWhile p).reverse.head? = some a →
      p a = false := by
    intro a ha
    obtain ⟨t, ht⟩ := exists_append_dropWhile p (l.dropWhile p).reverse
    have hrev : ((l.dropWhile p).reverse.dropWhile p).reverse ++ t.reverse =
        l.dropWhile p := by
      have h2 := congrArg List.reverse ht
      simpa using h2
    have hne : ((l.dropWhile p).reverse.dropWhile p).reverse ≠ [] := by
      intro h0
      rw [h0] at ha
      simp at ha
    have hh : (l.dropWhile p).head? = some a := by
      rw [← hrev, head?_append_left _ _ hne]
      exact ha
    exact dropWhile_head_false p l a hh
  unfold trimBy
  rw [dropWhile_eq_self_of_head p _ hhead1, List.reverse_reverse,
    dropWhile_eq_self_of_head p _ hhead2]

theorem jsTrim_idem (s : JStr) : jsTrim (jsTrim s) = jsTrim s :=
  trimBy_idem isJsWhitespace s

theorem isJsWhitespace_comp_jsToUpperChar :
    (fun a => isJsWhitespace (jsToUpperChar a)) = isJsWhitespace := by
  funext a
  exact isJsWhitespace_jsToUpperChar a

theorem dropWhile_map (p : β → Bool) (f : α → β) (l : List α) :
    List.dropWhile p (l.map f) = (List.dropWhile (fun a => p (f a)) l).map f := by
  induction l with
  | nil => simp
  | cons a l ih =>
    by_cases h : p (f a) = true
    · simpa [List.dropWhile, h] using ih
    · simp [List.dropWhile, h]

theorem jsTrim_jsToUpper (s : JStr) :
    jsTrim (jsToUpper s) = jsToUpper (jsTrim s) := by
  unfold jsTrim trimBy jsToUpper
  rw [dropWhile_map, isJsWhitespace_comp_jsToUpperChar, ← List.map_reverse,
    dropWhile_map, isJsWhitespace_comp_jsToUpperChar, ← List.map_reverse]

theorem jsToUpper_idem (s : JStr) : jsToUpper (jsToUpper s) = jsToUpper s := by
  unfold jsToUpper
  rw [List.map_map]
  congr 1
  funext a
  exact jsToUpperChar_idem a

theorem normalizeSerial_idem (s : JStr) :
    normalizeSerial (normalizeSerial s) = normalizeSerial s := by
  unfold normalizeSerial
  rw [jsTrim_jsToUpper, jsToUpper_idem, jsTrim_idem]

/-! String constants from the source, as code-point lists. -/

/-- the string `Fulfilled` (default order status, mcp-client.ts:999). -/
def kwFulfilled : JStr :=
  [70, 117, 108, 102, 105, 108, 108, 101, 100]

/-- the string `stock` (cache-key operation name, mcp-client.ts:370). -/
def kwStock : JStr :=
  [115, 116, 111, 99, 107]

/-- the string `productId` (cache-key parameter name, mcp-client.ts:370). -/
def kwProductId : JStr :=
  [112, 114, 111, 100, 117, 99, 116, 73, 100]

/-- the invalidation pattern `products` (mcp-client.ts:1414). -/
def patProducts : JStr :=
  [112, 114, 111, 100, 117, 99, 116, 115]

/-- the invalidation pattern `product:` (mcp-client.ts:1415). -/
def patProductColon : JStr :=
  [112, 114, 111, 100, 117, 99, 116, 58]

/-- the invalidation pattern `products_search` (mcp-client.ts:1416). -/
def patProductsSearch : JStr :=
  [112, 114, 111, 100, 117, 99, 116, 115, 95, 115, 101, 97, 114, 99, 104]

/-- the invalidation pattern `product_bom` (mcp-client.ts:1417). -/
def patProductBom : JStr :=
  [112, 114, 111, 100, 117, 99, 116, 95, 98, 111, 109]

/-- the invalidation pattern `bom` (mcp-client.ts:1418). -/
def patBom : JStr :=
  [98, 111, 109]

/-- the invalidation pattern `stock` (mcp-client.ts:456 and elsewhere). -/
def patStock : JStr :=
  [115, 116, 111, 99, 107]

/-- the invalidation pattern `vendors` (mcp-client.ts:1497). -/
def patVendors : JStr :=
  [118, 101, 110, 100, 111, 114, 115]

/-- the invalidation pattern `purchase_orders` (mcp-client.ts:1565). -/
def patPurchaseOrders : JStr :=
  [112, 117, 114, 99, 104, 97, 115, 101, 95, 111, 114, 100, 101, 114, 115]

/-- the invalidation pattern `purchase_order:` (mcp-client.ts:1566). -/
def patPurchaseOrderColon : JStr :=
  [112, 117, 114, 99, 104, 97, 115, 101, 95, 111, 114, 100, 101, 114, 58]

/-- the cache key `serial_index` (mcp-client.ts:1082). -/
def serialIndexCacheKey : JStr :=
  [115, 101, 114, 105, 97, 108, 95, 105, 110, 100, 101, 120]

/-- the source tag `pack` (mcp-client.ts:935). -/
def srcPack : JStr :=
  [112, 97, 99, 107]

/-- the source tag `pick` (mcp-client.ts:936). -/
def srcPick : JStr :=
  [112, 105, 99, 107]

/-- the source tag `order` (mcp-client.ts:937). -/
def srcOrder : JStr :=
  [111, 114, 100, 101, 114]

/-- the content type `text` (mcp-client.ts:170,174). -/
def kwText : JStr :=
  [116, 101, 120, 116]

/-- the default error message `Tool call failed` (mcp-client.ts:171). -/
def toolCallFailedMsg : JStr :=
  [84, 111, 111, 108, 32, 99, 97, 108, 108, 32, 102, 97, 105, 108, 101, 100]

/-- the `getStockLevels` validation message (mcp-client.ts:367). -/
def stockRequiredMsg : JStr :=
  [112, 114, 111, 100, 117, 99, 116, 73, 100, 32, 105, 115, 32, 114, 101, 113,
   117, 105, 114, 101, 100, 32, 102, 111, 114, 32, 103, 101, 116, 95, 105, 110,
   118, 101, 110, 116, 111, 114, 121, 95, 115, 117, 109, 109, 97, 114, 121, 46,
   32, 85, 115, 101, 32, 108, 105, 115, 116, 45, 112, 114, 111, 100, 117, 99,
   116, 115, 32, 102, 105, 114, 115, 116, 32, 116, 111, 32, 103, 101, 116, 32,
   112, 114, 111, 100, 117, 99, 116, 32, 73, 68, 115, 46]

/-- the `searchSerial` not-found message (mcp-client.ts:1104). -/
def serialNotFoundMsg : JStr :=
  [83, 101, 114, 105, 97, 108, 32, 110, 117, 109, 98, 101, 114, 32, 110, 111,
   116, 32, 102, 111, 117, 110, 100, 32, 105, 110, 32, 102, 117, 108, 102, 105,
   108, 108, 101, 100, 32, 115, 97, 108, 101, 115, 32, 111, 114, 100, 101, 114,
   115, 46, 32, 67, 104, 101, 99, 107, 32, 65, 105, 114, 116, 97, 98, 108, 101,
   32, 102, 111, 114, 32, 97, 117, 116, 104, 111, 114, 105, 116, 97, 116, 105,
   118, 101, 32, 115, 101, 114, 105, 97, 108, 32, 110, 117, 109, 98, 101, 114,
   32, 100, 97, 116, 97, 46]

/-! Association lists: the embedding of plain JS objects and `Map`s used as
keyed stores. JS object key order is insertion order, so inserts append. -/

/-- lookup in an association list (first binding wins; keys are unique in all
the lists we build, since inserts are guarded by a lookup). -/
def alistLookup (k : JStr) : List (JStr × β) → Option β
  | [] => none
  | e :: rest => if e.1 = k then some e.2 else alistLookup k rest

theorem alistLookup_append (k : JStr) (xs ys : List (JStr × β)) :
    alistLookup k (xs ++ ys) =
      match alistLookup k xs with
      | some v => some v
      | none => alistLookup k ys := by
  induction xs with
  | nil => simp [alistLookup]
  | cons e xs ih =>
    by_cases h : e.1 = k
    · simp [alistLookup, h]
    · simpa [alistLookup, h] using ih

/-! Cache store model. `PluginCache` is imported from `@local/plugin-cache`,
which is not part of `src/`; the store itself is modelled from the spec
(sections 3 and 4.1), while every use site below is translated from
`mcp-client.ts` / `cli.ts`. -/

/-- Modelled from the spec: a cache entry `{value, expiresAt}` with
`expiresAt = creationTime + ttl` (spec section 3, CacheEntry). -/
structure CacheEntry (α : Type) where
  value : α
  expiresAt : Nat
deriving DecidableEq

/-- Modelled from the spec: the process-wide cache store state — entries,
hit/miss counters and the global enable/disable switch (spec sections 3
and 4.1). One namespace is modelled, since the client uses a single
`PluginCache` instance. -/
structure CacheState (α : Type) where
  entries : List (JStr × CacheEntry α)
  hits : Nat
  misses : Nat
  enabled : Bool
deriving DecidableEq

/-- an empty, enabled cache. -/
def emptyCache : CacheState α :=
  ⟨[], 0, 0, true⟩

/-- store a value under a key, replacing any previous entry (at most one
stored copy per key, spec section 4.1). -/
def cacheInsert (k : JStr) (e : CacheEntry α) :
    List (JStr × CacheEntry α) → List (JStr × CacheEntry α)
  | [] => [(k, e)]
  | f :: rest => if f.1 = k then (k, e) :: rest else f :: cacheInsert k e rest

/-- Modelled from the spec: `cache.invalidatePattern(regex)` removes all
entries whose key matches (spec section 4.1). Every pattern passed by
`mcp-client.ts` is an anchored literal prefix (`/^stock/` etc.), so the
model takes the prefix string. -/
def invalidatePattern (pat : JStr) (c : CacheState α) : CacheState α :=
  { c with entries := c.entries.filter (fun e => !(pat.isPrefixOf e.1)) }

/-- Modelled from the spec: `cache.disable()` (spec section 4.1). -/
def cacheDisable (c : CacheState α) : CacheState α :=
  { c with enabled := false }

/-- Modelled from the spec: `cache.enable()` (spec section 4.1). -/
def cacheEnable (c : CacheState α) : CacheState α :=
  { c with enabled := true }

deriving instance DecidableEq for Except

/-- outcome of a `getOrFetch` call: the returned (or thrown) value, the cache
state afterwards, and whether the producer was invoked. Thrown JS errors are
embedded as `Except.error` carrying the message. -/
structure FetchOutcome (α : Type) where
  result : Except JStr α
  cache : CacheState α
  produced : Bool
deriving DecidableEq

/-- Modelled from the spec: the miss path of `getOrFetch` — increment the
miss counter, invoke the producer, store the result with expiry `now + ttl`
on success, propagate the error unchanged on failure (spec sections 4.1
and 7). The producer's one invocation is embedded as an `Except` value. -/
def getOrFetchMiss (c : CacheState α) (now : Nat) (key : JStr)
    (producer : Except JStr α) (ttl : Nat) : FetchOutcome α :=
  match producer with
  | .error e => ⟨.error e, { c with misses := c.misses + 1 }, true⟩
  | .ok v =>
      ⟨.ok v,
        { c with misses := c.misses + 1,
                 entries := cacheInsert key ⟨v, now + ttl⟩ c.entries },
        true⟩

/-- Modelled from the spec: `cache.getOrFetch(key, producer,
{ttl, bypassCache})` (spec section 4.1). If caching is enabled and
`bypassCache` is false, a present entry with `now < expiresAt` is a hit
(hit counter incremented, producer not invoked); otherwise the miss path
runs. If caching is disabled or `bypassCache` is true the producer is
invoked and the store is neither read nor written. -/
def getOrFetch (c : CacheState α) (now : Nat) (key : JStr)
    (producer : Except JStr α) (ttl : Nat) (bypassCache : Bool) :
    FetchOutcome α :=
  if c.enabled = true ∧ bypassCache = false then
    match alistLookup key c.entries with
    | some e =>
        if now < e.expiresAt then
          ⟨.ok e.value, { c with hits := c.hits + 1 }, false⟩
        else getOrFetchMiss c now key producer ttl
    | none => getOrFetchMiss c now key producer ttl
  else ⟨producer, c, true⟩

/-- the short TTL tier, 300 s (`TTL.FIVE_MINUTES`, spec section 6). -/
def ttlFiveMinutes : Nat := 300

/-- the long TTL tier, 3600 s (`TTL.HOUR`, spec section 6). -/
def ttlHour : Nat := 3600

/-- lexicographic comparison on code-point lists, used only to canonicalize
parameter order inside `createCacheKey`. -/
def jstrLe : JStr → JStr → Bool
  | [], _ => true
  | _ :: _, [] => false
  | a :: as, b :: bs => if a < b then true else if a = b then jstrLe as bs else false

/-- insertion step of the canonical parameter sort. -/
def insertParamSorted (x : JStr × JStr) :
    List (JStr × JStr) → List (JStr × JStr)
  | [] => [x]
  | y :: ys => if jstrLe x.1 y.1 then x :: y :: ys else y :: insertParamSorted x ys

/-- insertion sort of parameters by name. -/
def sortParams : List (JStr × JStr) → List (JStr × JStr)
  | [] => []
  | x :: xs => insertParamSorted x (sortParams xs)

/-- Modelled from the spec: `createCacheKey(operationName, params)` from
`@local/plugin-cache` (not under `src/`) — a deterministic key from the
operation name and the parameter map, canonical in parameter order, with
absent/undefined parameters dropped (spec section 4.2). Parameters are
joined with `:` (58) and `=` (61) separators. -/
def createCacheKey (op : JStr) (params : List (JStr × Option JStr)) : JStr :=
  op ++
    (sortParams (params.filterMap (fun p => p.2.map (fun v => (p.1, v))))).foldl
      (fun acc q => acc ++ (58 :: q.1) ++ (61 :: q.2)) []

/-- JS truthiness of an optional string: `undefined` and the empty string are
falsy, everything else is truthy. -/
def jsTruthyStr : Option JStr → Bool
  | none => false
  | some s => !s.isEmpty

/-! Mutation invalidators (spec section 4.5). Each write method performs the
remote call first and purges cache prefixes only on success; the one remote
invocation (which may throw) is embedded as an `Except` argument, and a
thrown error propagates before any invalidation runs. -/

/-- embedding of `createStockAdjustment` (mcp-client.ts:441-458): remote
`upsert_stock_adjustment` call, then `invalidatePattern(/^stock/)`. -/
def createStockAdjustment (remote : Except JStr α) (c : CacheState α) :
    Except JStr α × CacheState α :=
  match remote with
  | .error e => (.error e, c)
  | .ok v => (.ok v, invalidatePattern patStock c)

/-- embedding of `createStockTransfer` (mcp-client.ts:567-584). -/
def createStockTransfer (remote : Except JStr α) (c : CacheState α) :
    Except JStr α × CacheState α :=
  match remote with
  | .error e => (.error e, c)
  | .ok v => (.ok v, invalidatePattern patStock c)

/-- embedding of `createStockCount` (mcp-client.ts:654-663). -/
def createStockCount (remote : Except JStr α) (c : CacheState α) :
    Except JStr α × CacheState α :=
  match remote with
  | .error e => (.error e, c)
  | .ok v => (.ok v, invalidatePattern patStock c)

/-- embedding of `upsertProduct` (mcp-client.ts:1395-1420): remote
`upsert_product` call, then the five product-family purges in source order
(`products`, `product:`, `products_search`, `product_bom`, `bom`). -/
def upsertProduct (remote : Except JStr α) (c : CacheState α) :
    Except JStr α × CacheState α :=
  match remote with
  | .error e => (.error e, c)
  | .ok v =>
      (.ok v,
        invalidatePattern patBom
          (invalidatePattern patProductBom
            (invalidatePattern patProductsSearch
              (invalidatePattern patProductColon
                (invalidatePattern patProducts c)))))

/-- embedding of `upsertVendor` (mcp-client.ts:1469-1499). -/
def upsertVendor (remote : Except JStr α) (c : CacheState α) :
    Except JStr α × CacheState α :=
  match remote with
  | .error e => (.error e, c)
  | .ok v => (.ok v, invalidatePattern patVendors c)

/-- embedding of `upsertPurchaseOrder` (mcp-client.ts:1533-1568). -/
def upsertPurchaseOrder (remote : Except JStr α) (c : CacheState α) :
    Except JStr α × CacheState α :=
  match remote with
  | .error e => (.error e, c)
  | .ok v =>
      (.ok v,
        invalidatePattern patPurchaseOrderColon
          (invalidatePattern patPurchaseOrders c))

/-- embedding of `receivePurchaseOrder` (mcp-client.ts:1584-1600). -/
def receivePurchaseOrder (remote : Except JStr α) (c : CacheState α) :
    Except JStr α × CacheState α :=
  match remote with
  | .error e => (.error e, c)
  | .ok v =>
      (.ok v,
        invalidatePattern patStock
          (invalidatePattern patPurchaseOrderColon
            (invalidatePattern patPurchaseOrders c)))

/-- embedding of `unreceivePurchaseOrder` (mcp-client.ts:1622-1636): remote
call first; the three purges run only when `data.dryRun` is falsy (an absent
`dryRun` is embedded as `false`). -/
def unreceivePurchaseOrder (dryRun : Bool) (remote : Except JStr α)
    (c : CacheState α) : Except JStr α × CacheState α :=
  match remote with
  | .error e => (.error e, c)
  | .ok v =>
      if dryRun = false then
        (.ok v,
          invalidatePattern patStock
            (invalidatePattern patPurchaseOrderColon
              (invalidatePattern patPurchaseOrders c)))
      else (.ok v, c)

/-- embedding of `getStockLevels` (mcp-client.ts:365-377): `!productId`
(absent or empty) throws the validation message before any cache or remote
interaction; otherwise the `stock` key is built and `getOrFetch` runs with
the 5-minute TTL, the remote `get_inventory_summary` call being the
producer. -/
def getStockLevels (productId : Option JStr) (cacheDisabled : Bool)
    (c : CacheState α) (now : Nat) (remote : Except JStr α) : FetchOutcome α :=
  if jsTruthyStr productId = false then
    ⟨.error stockRequiredMsg, c, false⟩
  else
    getOrFetch c now (createCacheKey kwStock [(kwProductId, productId)])
      remote ttlFiveMinutes cacheDisabled

/-! CLI read-modify-write flows (cli.ts). Each one calls
`client.disableCache()`, awaits a fresh fetch, calls `client.enableCache()`
and then performs the write. There is no try/finally around the fetch. The
client state is the `cacheDisabled` flag (mcp-client.ts:39) together with
the shared cache store. -/

/-- the `InFlowMCPClient` cache-control state: the private `cacheDisabled`
flag plus the module-level cache store. -/
structure ClientCacheCtl (α : Type) where
  cacheDisabled : Bool
  cache : CacheState α
deriving DecidableEq

/-- embedding of `client.disableCache()` (mcp-client.ts:54-57). -/
def disableCache (s : ClientCacheCtl α) : ClientCacheCtl α :=
  ⟨true, cacheDisable s.cache⟩

/-- embedding of `client.enableCache()` (mcp-client.ts:62-65). -/
def enableCache (s : ClientCacheCtl α) : ClientCacheCtl α :=
  ⟨false, cacheEnable s.cache⟩

/-- embedding of the `update-product` command handler (cli.ts:332-348):
disable cache, fetch the fresh product, re-enable cache, upsert. A throwing
fetch propagates before `enableCache` runs. -/
def updateProductCmd (s : ClientCacheCtl α) (fetchRes : Except JStr α)
    (upsertRes : Except JStr α) : Except JStr α × ClientCacheCtl α :=
  let s1 := disableCache s
  match fetchRes with
  | .error e => (.error e, s1)
  | .ok _ =>
      let s2 := enableCache s1
      let r := upsertProduct upsertRes s2.cache
      (r.1, ⟨s2.cacheDisabled, r.2⟩)

/-- embedding of the `add-po-item` command handler (cli.ts:437-452):
disable cache, fetch the fresh purchase order, re-enable cache, upsert. -/
def addPoItemCmd (s : ClientCacheCtl α) (fetchRes : Except JStr α)
    (upsertRes : Except JStr α) : Except JStr α × ClientCacheCtl α :=
  let s1 := disableCache s
  match fetchRes with
  | .error e => (.error e, s1)
  | .ok _ =>
      let s2 := enableCache s1
      let r := upsertPurchaseOrder upsertRes s2.cache
      (r.1, ⟨s2.cacheDisabled, r.2⟩)

/-- embedding of the `update-purchase-order` command handler
(cli.ts:465-495): disable cache, fetch the fresh purchase order, re-enable
cache, upsert. -/
def updatePurchaseOrderCmd (s : ClientCacheCtl α) (fetchRes : Except JStr α)
    (upsertRes : Except JStr α) : Except JStr α × ClientCacheCtl α :=
  let s1 := disableCache s
  match fetchRes with
  | .error e => (.error e, s1)
  | .ok _ =>
      let s2 := enableCache s1
      let r := upsertPurchaseOrder upsertRes s2.cache
      (r.1, ⟨s2.cacheDisabled, r.2⟩)

/-! Sales-order data model, as consumed by the serial extraction code. A line
carries `productId` and `quantity?.serialNumbers`; the latter is `none` when
`quantity` is absent or `serialNumbers` is not an array
(`if (!Array.isArray(serialNumbers)) continue`). Orders carry the three line
arrays (each possibly absent: `lines || []`), the identifying fields, and
`customFields?.custom4`. -/

/-- a sales-order line, restricted to the fields the extraction code reads. -/
structure SOLine where
  productId : JStr
  serialNumbers : Option (List JStr)
deriving DecidableEq

/-- a sales order, restricted to the fields the extraction code reads. -/
structure SalesOrder where
  salesOrderId : JStr
  orderNumber : JStr
  orderDate : JStr
  inventoryStatus : JStr
  custom4 : Option JStr
  lines : Option (List SOLine)
  pickLines : Option (List SOLine)
  packLines : Option (List SOLine)
deriving DecidableEq

/-- an entry of the order-based serial index (mcp-client.ts:1041-1048). -/
structure SerialIndexRecord where
  serial : JStr
  salesOrderId : JStr
  orderNumber : JStr
  orderDate : JStr
  productId : JStr
  shopifyOrderUrl : Option JStr
deriving DecidableEq

/-- the serial index: a plain JS object mapping normalized serial to record.
Normalized keys are whitespace-free and contain no ASCII lowercase letters,
so they cannot collide with `Object.prototype` member names; a plain
association list is therefore a faithful embedding. -/
abbrev SerialIndex := List (JStr × SerialIndexRecord)

/-- `order.customFields?.custom4 || null` (mcp-client.ts:1047): an absent or
empty string becomes `null`. -/
def jsOrNull : Option JStr → Option JStr
  | none => none
  | some s => if s.isEmpty then none else some s

/-- the record stored for a normalized serial `n` found on `line` of order
`o` (mcp-client.ts:1041-1048). -/
def mkIndexRecord (o : SalesOrder) (line : SOLine) (n : JStr) :
    SerialIndexRecord :=
  ⟨n, o.salesOrderId, o.orderNumber, o.orderDate, line.productId,
    jsOrNull o.custom4⟩

/-- inner loop body of `extractFromLines` (mcp-client.ts:1036-1050): skip a
falsy serial, normalize, and store only if the key is not already present
(first writer wins). JS object insertion appends in key order. -/
def indexInsertSerial (o : SalesOrder) (line : SOLine) (idx : SerialIndex)
    (serial : JStr) : SerialIndex :=
  if serial.isEmpty then idx
  else
    match alistLookup (normalizeSerial serial) idx with
    | some _ => idx
    | none => idx ++ [(normalizeSerial serial, mkIndexRecord o line (normalizeSerial serial))]

/-- per-line step of `extractFromLines` (mcp-client.ts:1032-1051): lines
without a serial-number array are skipped. -/
def indexLineStep (o : SalesOrder) (idx : SerialIndex) (line : SOLine) :
    SerialIndex :=
  match line.serialNumbers with
  | none => idx
  | some sns => sns.foldl (indexInsertSerial o line) idx

/-- embedding of the `extractFromLines` helper of `buildSerialIndex`
(mcp-client.ts:1031-1052); `lines || []` treats an absent array as empty. -/
def extractFromLines (lines : Option (List SOLine)) (o : SalesOrder)
    (idx : SerialIndex) : SerialIndex :=
  (lines.getD []).foldl (indexLineStep o) idx

/-- the per-order pass of `buildSerialIndex` (mcp-client.ts:1054-1059):
pack lines, then pick lines, then raw order lines. -/
def buildSerialIndexFromOrders (orders : List SalesOrder) : SerialIndex :=
  orders.foldl
    (fun idx o =>
      extractFromLines o.lines o
        (extractFromLines o.pickLines o
          (extractFromLines o.packLines o idx)))
    []

/-- the fixed page size of the pagination loop (mcp-client.ts:1005). -/
def pageSize : Nat := 100

/-- JS truthiness of the optional `maxOrders` cap combined with the
`allOrders.length >= maxOrders` test (mcp-client.ts:1020): a `0` cap is
falsy and disables the cap entirely. -/
def capReached : Option Nat → Nat → Bool
  | none, _ => false
  | some m, n => decide (m ≠ 0) && decide (m ≤ n)

/-- embedding of the pagination loop of `buildSerialIndex`
(mcp-client.ts:1003-1025). `pages` lists the remote responses at
`skip = 0, pageSize, 2*pageSize, ...`; once `pages` is exhausted the remote
returns an empty page, which the short-page test turns into a break. Each
iteration appends the page, breaks on a short page, then breaks with
truncation to exactly the cap when the cap is reached. -/
def collectOrdersLoop (maxOrders : Option Nat) :
    List (List SalesOrder) → List SalesOrder → List SalesOrder
  | [], acc => acc
  | p :: rest, acc =>
      if p.length < pageSize then acc ++ p
      else if capReached maxOrders (acc ++ p).length then
        (acc ++ p).take (maxOrders.getD 0)
      else collectOrdersLoop maxOrders rest (acc ++ p)

/-- `options?.status || 'Fulfilled'` (mcp-client.ts:999): absent or empty
status falls back to `Fulfilled`. -/
def buildStatus (statusOpt : Option JStr) : JStr :=
  match statusOpt with
  | none => kwFulfilled
  | some s => if s.isEmpty then kwFulfilled else s

/-- embedding of `buildSerialIndex` (mcp-client.ts:995-1062): resolve the
status, page through the remote sales orders of that status (the remote is
embedded as a function from status to its successive page responses), then
build the first-writer-wins index from the collected orders. -/
def buildSerialIndex (statusOpt : Option JStr) (limit : Option Nat)
    (fetchPages : JStr → List (List SalesOrder)) : SerialIndex :=
  buildSerialIndexFromOrders
    (collectOrdersLoop limit (fetchPages (buildStatus statusOpt)) [])

/-- result shape of `searchSerial` (mcp-client.ts:1094-1105): a found record
spread into the result, or a not-found value carrying the normalized serial
and the fixed hint message. -/
structure SearchResult where
  found : Bool
  record : Option SerialIndexRecord
  serial : Option JStr
  message : Option JStr
deriving DecidableEq

/-- the lookup part of `searchSerial` (mcp-client.ts:1091-1105), for a given
index value. -/
def searchSerialLookup (idx : SerialIndex) (serial : JStr) : SearchResult :=
  match alistLookup (normalizeSerial serial) idx with
  | some r => ⟨true, some r, none, none⟩
  | none => ⟨false, none, some (normalizeSerial serial), some serialNotFoundMsg⟩

/-- embedding of `searchSerial` (mcp-client.ts:1081-1106): fetch the cached
index under the fixed `serial_index` key (1-hour TTL, bypass when caching is
disabled; the index build is the producer), then look the normalized query
up in it. -/
def searchSerial (c : CacheState SerialIndex) (now : Nat)
    (buildResult : Except JStr SerialIndex) (cacheDisabled : Bool)
    (serial : JStr) : Except JStr SearchResult × CacheState SerialIndex :=
  let f := getOrFetch c now serialIndexCacheKey buildResult ttlHour cacheDisabled
  match f.result with
  | .error e => (.error e, f.cache)
  | .ok idx => (.ok (searchSerialLookup idx serial), f.cache)

/-! `getSalesOrderSerials` (mcp-client.ts:902-949): per-order extraction into
a `Map` keyed by the RAW serial string, with duplicate occurrences appending
their source tag. -/

/-- a record of the per-order serial map (mcp-client.ts:908). -/
structure OrderSerialRecord where
  serial : JStr
  productId : JStr
  sources : List JStr
deriving DecidableEq

/-- the per-order serial map, keyed by the raw serial string; JS `Map`
preserves insertion order. -/
abbrev OrderSerialMap := List (JStr × OrderSerialRecord)

/-- `existing.sources.push(source)` (mcp-client.ts:922): append a source tag
to the record stored under `k`; no-op when `k` is absent. -/
def soMapPush (k : JStr) (source : JStr) : OrderSerialMap → OrderSerialMap
  | [] => []
  | e :: rest =>
      if e.1 = k then (e.1, ⟨e.2.serial, e.2.productId, e.2.sources ++ [source]⟩) :: rest
      else e :: soMapPush k source rest

/-- inner loop body of the `extractSerials` helper (mcp-client.ts:917-930):
skip falsy serials; push the source tag onto an existing record, else insert
a new record keyed by the raw serial. -/
def soInsertSerial (source : JStr) (line : SOLine) (m : OrderSerialMap)
    (serial : JStr) : OrderSerialMap :=
  if serial.isEmpty then m
  else
    match alistLookup serial m with
    | some _ => soMapPush serial source m
    | none => m ++ [(serial, ⟨serial, line.productId, [source]⟩)]

/-- per-line step of `extractSerials` (mcp-client.ts:913-931). -/
def soLineStep (source : JStr) (m : OrderSerialMap) (line : SOLine) :
    OrderSerialMap :=
  match line.serialNumbers with
  | none => m
  | some sns => sns.foldl (soInsertSerial source line) m

/-- embedding of the `extractSerials` helper (mcp-client.ts:912-932). -/
def soExtractSerials (lines : Option (List SOLine)) (source : JStr)
    (m : OrderSerialMap) : OrderSerialMap :=
  (lines.getD []).foldl (soLineStep source) m

/-- the serial map built by `getSalesOrderSerials` (mcp-client.ts:935-937):
pack lines first, then pick lines, then raw order lines. -/
def soSerialMap (o : SalesOrder) : OrderSerialMap :=
  soExtractSerials o.lines srcOrder
    (soExtractSerials o.pickLines srcPick
      (soExtractSerials o.packLines srcPack []))

/-- result shape of `getSalesOrderSerials` (mcp-client.ts:941-948). -/
structure OrderSerialsResult where
  salesOrderId : JStr
  orderNumber : JStr
  orderDate : JStr
  status : JStr
  serialCount : Nat
  serials : List OrderSerialRecord
deriving DecidableEq

/-- embedding of `getSalesOrderSerials` (mcp-client.ts:902-949), given the
fetched order. -/
def getSalesOrderSerials (o : SalesOrder) : OrderSerialsResult :=
  ⟨o.salesOrderId, o.orderNumber, o.orderDate, o.inventoryStatus,
    ((soSerialMap o).map (fun e => e.2)).length,
    (soSerialMap o).map (fun e => e.2)⟩

/-! `callTool` result handling (mcp-client.ts:163-184). The remote result is
`{isError, content}`; an error result throws the first text content (or the
default message), a success result parses the first non-empty text content as
JSON with a raw-text fallback, or returns the content array when there is no
non-empty text. `JSON.parse` is embedded as an arbitrary fallible parse
function. -/

/-- one element of an MCP result content array. -/
structure ContentItem where
  type : JStr
  text : Option JStr
deriving DecidableEq

/-- a remote MCP tool result. -/
structure ToolResult where
  isError : Bool
  content : List ContentItem
deriving DecidableEq

/-- the value `callTool` returns: parsed JSON, the raw text, or the raw
content array. -/
inductive ToolOut (β : Type) where
  | parsed (b : β)
  | rawText (s : JStr)
  | rawContent (items : List ContentItem)
deriving DecidableEq

/-- `content.find(c => c.type === "text")` (mcp-client.ts:170,174). -/
def firstTextItem (content : List ContentItem) : Option ContentItem :=
  content.find? (fun c => c.type = kwText)

/-- embedding of the result handling of `callTool` (mcp-client.ts:166-183):
`isError` throws `errorContent?.text || "Tool call failed"`; otherwise a
non-empty first text content is parsed, falling back to the raw text, and
everything else returns the content array. -/
def callTool (parse : JStr → Except JStr β) (r : ToolResult) :
    Except JStr (ToolOut β) :=
  if r.isError then
    .error
      (match firstTextItem r.content with
       | some item =>
           match item.text with
           | some t => if t.isEmpty then toolCallFailedMsg else t
           | none => toolCallFailedMsg
       | none => toolCallFailedMsg)
  else
    match firstTextItem r.content with
    | some item =>
        match item.text with
        | some t =>
            if t.isEmpty then .ok (.rawContent r.content)
            else
              match parse t with
              | .ok b => .ok (.parsed b)
              | .error _ => .ok (.rawText t)
        | none => .ok (.rawContent r.content)
    | none => .ok (.rawContent r.content)

/-! Claim theorems. -/

/-- C3: every write operation performs the remote write first and purges
cache entries only after the write succeeds; a throwing remote write
propagates unchanged and leaves every cache entry of the resource family (and
all others) untouched, while a successful write applies exactly the
documented pattern purges. -/
theorem writes_purge_only_after_success {α : Type} (e : JStr) (v : α)
    (c : CacheState α) :
    createStockAdjustment (.error e) c = (.error e, c) ∧
    createStockTransfer (.error e) c = (.error e, c) ∧
    createStockCount (.error e) c = (.error e, c) ∧
    upsertProduct (.error e) c = (.error e, c) ∧
    upsertVendor (.error e) c = (.error e, c) ∧
    upsertPurchaseOrder (.error e) c = (.error e, c) ∧
    receivePurchaseOrder (.error e) c = (.error e, c) ∧
    (∀ d : Bool, unreceivePurchaseOrder d (.error e) c = (.error e, c)) ∧
    createStockAdjustment (.ok v) c = (.ok v, invalidatePattern patStock c) ∧
    upsertProduct (.ok v) c =
      (.ok v,
        invalidatePattern patBom
          (invalidatePattern patProductBom
            (invalidatePattern patProductsSearch
              (invalidatePattern patProductColon
                (invalidatePattern patProducts c))))) ∧
    upsertVendor (.ok v) c = (.ok v, invalidatePattern patVendors c) ∧
    receivePurchaseOrder (.ok v) c =
      (.ok v,
        invalidatePattern patStock
          (invalidatePattern patPurchaseOrderColon
            (invalidatePattern patPurchaseOrders c))) :=
  ⟨rfl, rfl, rfl, rfl, rfl, rfl, rfl, fun _ => rfl, rfl, rfl, rfl, rfl⟩

/-- C9: `unreceivePurchaseOrder` with `dryRun` leaves the cache completely
unchanged after the remote call (whatever that call returned), while with
`dryRun` false (or absent, embedded as `false`) a successful call applies
the `purchase_orders`, `purchase_order:` and `stock` purges. -/
theorem unreceivePurchaseOrder_dryRun_frame {α : Type} (c : CacheState α) :
    (∀ remote : Except JStr α, (unreceivePurchaseOrder true remote c).2 = c) ∧
    (∀ v : α,
      unreceivePurchaseOrder false (.ok v) c =
        (.ok v,
          invalidatePattern patStock
            (invalidatePattern patPurchaseOrderColon
              (invalidatePattern patPurchaseOrders c)))) := by
  constructor
  · intro remote
    cases remote <;> rfl
  · intro v
    rfl

/-- C6: the read-modify-write CLI flows do NOT guarantee re-enabling the
cache: when the intervening fetch throws, each of `update-product`,
`add-po-item` and `update-purchase-order` propagates the error with the
`cacheDisabled` flag still `true` and the store still disabled (there is no
try/finally in cli.ts), whereas on a successful fetch the flag is `false`
again. -/
theorem updateFlows_failedFetch_leaveCacheDisabled {α : Type}
    (s : ClientCacheCtl α) (e : JStr) (v : α) (u : Except JStr α) :
    (updateProductCmd s (.error e) u).2 = ⟨true, cacheDisable s.cache⟩ ∧
    (addPoItemCmd s (.error e) u).2 = ⟨true, cacheDisable s.cache⟩ ∧
    (updatePurchaseOrderCmd s (.error e) u).2 = ⟨true, cacheDisable s.cache⟩ ∧
    (updateProductCmd s (.error e) u).1 = .error e ∧
    (updateProductCmd s (.ok v) u).2.cacheDisabled = false :=
  ⟨rfl, rfl, rfl, rfl, rfl⟩

theorem alistLookup_cacheInsert_self (k : JStr) (e : CacheEntry α)
    (l : List (JStr × CacheEntry α)) :
    alistLookup k (cacheInsert k e l) = some e := by
  induction l with
  | nil => simp [cacheInsert, alistLookup]
  | cons f rest ih =>
    by_cases h : f.1 = k
    · simp [cacheInsert, h, alistLookup]
    · simp [cacheInsert, h, alistLookup, ih]

/-- C4: after a `getOrFetch` call that actually ran its producer and stored
value `v` under key `K` with TTL `T` (caching enabled, `bypassCache` false),
any second call for `K` before `T` seconds have elapsed is a hit: it returns
the first stored value without invoking its own producer. Once the entry's
expiry `now + T` is reached the entry is stale and the second call is a miss
that invokes (returns) its own producer. -/
theorem getOrFetch_ttl_semantics {α : Type} (c : CacheState α)
    (now now2 : Nat) (k : JStr) (v : α) (p2 : Except JStr α) (T T2 : Nat)
    (hen : c.enabled = true) (hT : 0 < T)
    (hstore : (getOrFetch c now k (.ok v) T false).produced = true) :
    (getOrFetch c now k (.ok v) T false).result = .ok v ∧
    (now2 < now + T →
      (getOrFetch (getOrFetch c now k (.ok v) T false).cache now2 k p2 T2
          false).result = .ok v ∧
      (getOrFetch (getOrFetch c now k (.ok v) T false).cache now2 k p2 T2
          false).produced = false) ∧
    (now + T ≤ now2 →
      (getOrFetch (getOrFetch c now k (.ok v) T false).cache now2 k p2 T2
          false).result = p2 ∧
      (getOrFetch (getOrFetch c now k (.ok v) T false).cache now2 k p2 T2
          false).produced = true) := by
  have hcond : c.enabled = true ∧ false = false := ⟨hen, rfl⟩
  have hmiss : getOrFetch c now k (.ok v) T false =
      getOrFetchMiss c now k (.ok v) T := by
    unfold getOrFetch
    rw [if_pos hcond]
    cases hl : alistLookup k c.entries with
    | none => rfl
    | some en =>
      by_cases hfresh : now < en.expiresAt
      · exfalso
        unfold getOrFetch at hstore
        rw [if_pos hcond] at hstore
        simp only [hl, if_pos hfresh] at hstore
        exact Bool.false_ne_true hstore
      · simp only [if_neg hfresh]
  rw [hmiss]
  unfold getOrFetchMiss
  refine ⟨rfl, ?_, ?_⟩
  · intro hlt
    unfold getOrFetch
    rw [if_pos ⟨hen, rfl⟩]
    simp only [alistLookup_cacheInsert_self]
    rw [if_pos hlt]
    exact ⟨rfl, rfl⟩
  · intro hge
    unfold getOrFetch
    rw [if_pos ⟨hen, rfl⟩]
    simp only [alistLookup_cacheInsert_self]
    rw [if_neg (by omega : ¬ now2 < now + T)]
    cases p2 <;> exact ⟨rfl, rfl⟩

/-- C4 witness: a concrete run of the hit-then-expire scenario. -/
theorem getOrFetch_ttl_semantics_witness :
    (emptyCache (α := Nat)).enabled = true ∧ 0 < 2 ∧
    (getOrFetch (emptyCache (α := Nat)) 0 kwStock (.ok 7) 2 false).produced
      = true ∧
    ((getOrFetch (emptyCache (α := Nat)) 0 kwStock (.ok 7) 2 false).result
        = .ok 7 ∧
      (1 < 0 + 2 →
        (getOrFetch
            (getOrFetch (emptyCache (α := Nat)) 0 kwStock (.ok 7) 2
              false).cache 1 kwStock (.ok 9) 2 false).result = .ok 7 ∧
        (getOrFetch
            (getOrFetch (emptyCache (α := Nat)) 0 kwStock (.ok 7) 2
              false).cache 1 kwStock (.ok 9) 2 false).produced = false) ∧
      (0 + 2 ≤ 1 →
        (getOrFetch
            (getOrFetch (emptyCache (α := Nat)) 0 kwStock (.ok 7) 2
              false).cache 1 kwStock (.ok 9) 2 false).result = .ok 9 ∧
        (getOrFetch
            (getOrFetch (emptyCache (α := Nat)) 0 kwStock (.ok 7) 2
              false).cache 1 kwStock (.ok 9) 2 false).produced = true)) :=
  ⟨rfl, by decide, rfl,
    getOrFetch_ttl_semantics emptyCache 0 1 kwStock 7 (.ok 9) 2 2 rfl
      (by decide) rfl⟩

/-- C7 counterexample: a present but empty `productId` does NOT proceed to
the cached fetch — `!productId` is also true for the empty string, so the
call throws the validation message, never invoking the producer, instead of
running the cached fetch (which, on this empty enabled cache, would have
been a producer-invoking miss returning `.ok 5`). -/
theorem getStockLevels_present_empty_counterexample :
    (getStockLevels (α := Nat) (some []) false emptyCache 0 (.ok 5)).result
        = .error stockRequiredMsg ∧
    (getStockLevels (α := Nat) (some []) false emptyCache 0 (.ok 5)).produced
        = false ∧
    (getOrFetch (emptyCache (α := Nat)) 0
        (createCacheKey kwStock [(kwProductId, some [])]) (.ok 5)
        ttlFiveMinutes false).produced = true :=
  ⟨rfl, rfl, rfl⟩

/-- C7 (amended): `getStockLevels` with a falsy `productId` (absent OR the
empty string) throws the validation message before any cache read, cache
write or remote call — the cache state is returned untouched and the
producer is never invoked; with a non-empty `productId` it proceeds to the
cached fetch under the `stock` key with the 5-minute TTL. -/
theorem getStockLevels_failFast {α : Type} (productId : Option JStr)
    (d : Bool) (c : CacheState α) (now : Nat) (remote : Except JStr α) :
    (jsTruthyStr productId = false →
      getStockLevels productId d c now remote
        = ⟨.error stockRequiredMsg, c, false⟩) ∧
    (∀ pid, productId = some pid → pid ≠ [] →
      getStockLevels productId d c now remote
        = getOrFetch c now (createCacheKey kwStock [(kwProductId, productId)])
            remote ttlFiveMinutes d) := by
  constructor
  · intro h
    unfold getStockLevels
    rw [if_pos h]
  · intro pid hp hne
    unfold getStockLevels
    rw [if_neg ?_]
    subst hp
    unfold jsTruthyStr
    cases pid with
    | nil => exact absurd rfl hne
    | cons a l => simp

/-- C7 witness: concrete runs of both branches of the amended claim. -/
theorem getStockLevels_failFast_witness :
    jsTruthyStr (none : Option JStr) = false ∧
    getStockLevels (α := Nat) none false emptyCache 0 (.ok 5)
      = ⟨.error stockRequiredMsg, emptyCache, false⟩ ∧
    (some [107] : Option JStr) = some [107] ∧ ([107] : JStr) ≠ [] ∧
    getStockLevels (α := Nat) (some [107]) false emptyCache 0 (.ok 5)
      = getOrFetch emptyCache 0
          (createCacheKey kwStock [(kwProductId, some [107])]) (.ok 5)
          ttlFiveMinutes false :=
  ⟨rfl,
    (getStockLevels_failFast none false emptyCache 0 (.ok 5)).1 rfl,
    rfl, by decide,
    (getStockLevels_failFast (some [107]) false emptyCache 0 (.ok 5)).2
      [107] rfl (by decide)⟩

theorem callTool_ok_of_not_error {β : Type} (parse : JStr → Except JStr β)
    (r : ToolResult) (h : r.isError = false) :
    ∃ out, callTool parse r = .ok out := by
  unfold callTool
  rw [h]
  simp only [Bool.false_eq_true, if_false]
  split
  · split
    · split
      · exact ⟨_, rfl⟩
      · split
        · exact ⟨_, rfl⟩
        · exact ⟨_, rfl⟩
    · exact ⟨_, rfl⟩
  · exact ⟨_, rfl⟩

/-- C8: `callTool` throws exactly when the remote flags an error, carrying
the remote-supplied message (the first non-empty text content); for every
non-error result whose first text content carries a non-empty text, the
text is parsed, falling back to the raw text when parsing fails — the
result is an `.ok` value for every parse function, so the fallback path
never throws. -/
theorem callTool_error_and_fallback {β : Type}
    (parse : JStr → Except JStr β) (r : ToolResult) :
    ((∃ m, callTool parse r = .error m) ↔ r.isError = true) ∧
    (∀ item t, r.isError = true → firstTextItem r.content = some item →
      item.text = some t → t ≠ [] → callTool parse r = .error t) ∧
    (∀ item t, r.isError = false → firstTextItem r.content = some item →
      item.text = some t → t ≠ [] →
      callTool parse r =
        .ok (match parse t with
             | .ok b => .parsed b
             | .error _ => .rawText t)) := by
  refine ⟨?_, ?_, ?_⟩
  · constructor
    · intro hm
      by_contra hne
      have hfalse : r.isError = false := by
        cases hr : r.isError
        · rfl
        · exact absurd hr hne
      obtain ⟨out, hout⟩ := callTool_ok_of_not_error parse r hfalse
      obtain ⟨m, hmm⟩ := hm
      rw [hout] at hmm
      exact Except.noConfusion hmm
    · intro hi
      unfold callTool
      simp only [hi, if_true]
      exact ⟨_, rfl⟩
  · intro item t hi hf ht hne
    have hemp : t.isEmpty = false := by
      cases t with
      | nil => exact absurd rfl hne
      | cons a l => rfl
    unfold callTool
    rw [hi]
    simp only [if_true, hf, ht, hemp, Bool.false_eq_true, if_false]
  · intro item t hi hf ht hne
    have hemp : t.isEmpty = false := by
      cases t with
      | nil => exact absurd rfl hne
      | cons a l => rfl
    unfold callTool
    rw [hi]
    simp only [Bool.false_eq_true, if_false, hf, ht, hemp]
    cases parse t <;> rfl

/-- a parse function that always fails, for the witness below. -/
def sampleParseFail : JStr → Except JStr Nat :=
  fun _ => .error []

/-- an error-flagged remote result whose first text item carries `7`. -/
def sampleToolError : ToolResult :=
  ⟨true, [⟨[1], none⟩, ⟨kwText, some [55]⟩]⟩

/-- a successful remote result whose first text item carries `7`. -/
def sampleToolOk : ToolResult :=
  ⟨false, [⟨kwText, some [55]⟩]⟩

/-- C8 witness: concrete runs of the error path and of the parse-fallback
path (with a parse function that fails, exercising the raw-text fallback). -/
theorem callTool_error_and_fallback_witness :
    sampleToolError.isError = true ∧
    firstTextItem sampleToolError.content = some ⟨kwText, some [55]⟩ ∧
    (some [55] : Option JStr) = some [55] ∧ ([55] : JStr) ≠ [] ∧
    callTool sampleParseFail sampleToolError = .error [55] ∧
    sampleToolOk.isError = false ∧
    firstTextItem sampleToolOk.content = some ⟨kwText, some [55]⟩ ∧
    callTool sampleParseFail sampleToolOk = .ok (.rawText [55]) := by
  refine ⟨rfl, by decide, rfl, by decide, ?_, rfl, by decide, ?_⟩
  · exact (callTool_error_and_fallback sampleParseFail sampleToolError).2.1
      ⟨kwText, some [55]⟩ [55] rfl (by decide) rfl (by decide)
  · exact (callTool_error_and_fallback sampleParseFail sampleToolOk).2.2
      ⟨kwText, some [55]⟩ [55] rfl (by decide) rfl (by decide)

/-- a sample fulfilled order whose pack lines carry serial `A` (65). -/
def sampleOrderA : SalesOrder :=
  ⟨[1], [1], [1], [1], none, none, none, some [⟨[3], some [[65]]⟩]⟩

/-- a sample fulfilled order whose pack lines carry serial `B` (66). -/
def sampleOrderB : SalesOrder :=
  ⟨[2], [2], [2], [2], none, none, none, some [⟨[4], some [[66]]⟩]⟩

/-- C2 counterexample: with cap `limit = 1` and a single (short) remote page
of two orders, the short-page break fires before the cap check, so BOTH
orders are collected (no truncation) and both contribute entries to the
index — the number of orders contributing exceeds the cap. -/
theorem buildSerialIndex_cap_exceeded_counterexample :
    ¬ (collectOrdersLoop (some 1) [[sampleOrderA, sampleOrderB]] []).length
        ≤ 1 ∧
    (alistLookup [65]
      (buildSerialIndex none (some 1)
        (fun _ => [[sampleOrderA, sampleOrderB]]))).isSome = true ∧
    (alistLookup [66]
      (buildSerialIndex none (some 1)
        (fun _ => [[sampleOrderA, sampleOrderB]]))).isSome = true := by
  decide

theorem collectOrdersLoop_full_pages (m : Nat)
    (pages : List (List SalesOrder)) (acc : List SalesOrder) (hm : 0 < m)
    (hacc : acc.length < m) (hfull : ∀ p ∈ pages, p.length = pageSize) :
    (collectOrdersLoop (some m) pages acc).length =
      min m (acc.length + pageSize * pages.length) := by
  induction pages generalizing acc with
  | nil =>
    unfold collectOrdersLoop
    simp
    omega
  | cons p rest ih =>
    have hp : p.length = pageSize := hfull p (List.mem_cons_self p rest)
    have hrest : ∀ q ∈ rest, q.length = pageSize :=
      fun q hq => hfull q (List.mem_cons_of_mem p hq)
    unfold collectOrdersLoop
    rw [if_neg (by omega : ¬ p.length < pageSize)]
    by_cases hc : capReached (some m) (acc ++ p).length = true
    · rw [if_pos hc]
      have hcap : m ≤ (acc ++ p).length := by
        unfold capReached at hc
        rw [Bool.and_eq_true, decide_eq_true_eq, decide_eq_true_eq] at hc
        exact hc.2
      have hlen : (acc ++ p).length = acc.length + pageSize := by
        simp [hp]
      rw [List.length_take]
      simp only [Option.getD, List.length_cons]
      have hmul : pageSize * (rest.length + 1) =
          pageSize * rest.length + pageSize := by ring
      omega
    · rw [if_neg hc]
      have hlt : (acc ++ p).length < m := by
        unfold capReached at hc
        rw [Bool.and_eq_true, decide_eq_true_eq, decide_eq_true_eq] at hc
        push_neg at hc
        have h2 := hc (by omega)
        omega
      have hrec := ih (acc ++ p) hlt hrest
      rw [hrec]
      simp only [List.length_cons]
      have hlen : (acc ++ p).length = acc.length + pageSize := by
        simp [hp]
      have hmul : pageSize * (rest.length + 1) =
          pageSize * rest.length + pageSize := by ring
      omega

/-- C2 (amended): the pagination loop uses the fixed page size 100 with
0-based skip and stops on a short page or on the cap, but the short-page
test runs first, so truncation to exactly the cap happens only when the cap
is reached on a full page; if every fetched page is full the number of
collected orders is `min cap (pageSize * pages)` — never above the cap —
while a final short page is kept whole and can push the count past the cap
(see the counterexample). -/
theorem collectOrdersLoop_cap_full_pages (m : Nat)
    (pages : List (List SalesOrder)) (hm : 0 < m)
    (hfull : ∀ p ∈ pages, p.length = pageSize) :
    (collectOrdersLoop (some m) pages []).length =
      min m (pageSize * pages.length) := by
  have h := collectOrdersLoop_full_pages m pages [] hm (by simpa using hm)
    hfull
  simpa using h

/-- C2 witness: one full page of 100 orders with cap 1 collects exactly one
order. -/
theorem collectOrdersLoop_cap_full_pages_witness :
    0 < 1 ∧
    (∀ p ∈ [List.replicate 100 sampleOrderA], p.length = pageSize) ∧
    (collectOrdersLoop (some 1) [List.replicate 100 sampleOrderA] []).length
      = min 1 (pageSize * 1) := by
  refine ⟨by decide, by decide, ?_⟩
  have h := collectOrdersLoop_cap_full_pages 1
    [List.replicate 100 sampleOrderA] (by decide) (by decide)
  simpa using h

/-- left-biased choice on options (the shape of first-binding lookup). -/
def firstSome (a b : Option β) : Option β :=
  match a with
  | some v => some v
  | none => b

theorem firstSome_none (b : Option β) : firstSome none b = b := rfl

theorem firstSome_assoc (a b c : Option β) :
    firstSome (firstSome a b) c = firstSome a (firstSome b c) := by
  cases a <;> rfl

theorem alistLookup_append_firstSome (k : JStr) (xs ys : List (JStr × β)) :
    alistLookup k (xs ++ ys) =
      firstSome (alistLookup k xs) (alistLookup k ys) :=
  alistLookup_append k xs ys

/-- the occurrence list contributed by one line to the serial index, in
source iteration order: the line's non-falsy serials, normalized, each
paired with the record `buildSerialIndex` would create for it. -/
def lineSerialHits (o : SalesOrder) (line : SOLine) :
    List (JStr × SerialIndexRecord) :=
  match line.serialNumbers with
  | none => []
  | some sns =>
      (sns.filter (fun s => !s.isEmpty)).map
        (fun s => (normalizeSerial s, mkIndexRecord o line (normalizeSerial s)))

/-- the occurrence list of one optional line array. -/
def linesSerialHits (o : SalesOrder) (lines : Option (List SOLine)) :
    List (JStr × SerialIndexRecord) :=
  ((lines.getD []).map (lineSerialHits o)).flatten

/-- the occurrence list of one order, in the source's priority order:
pack lines, then pick lines, then raw order lines. -/
def orderSerialHits (o : SalesOrder) : List (JStr × SerialIndexRecord) :=
  linesSerialHits o o.packLines ++ linesSerialHits o o.pickLines ++
    linesSerialHits o o.lines

/-- every serial occurrence of a list of orders, in processing order. -/
def processingHits (orders : List SalesOrder) :
    List (JStr × SerialIndexRecord) :=
  (orders.map orderSerialHits).flatten


theorem lookup_foldl_indexInsert (o : SalesOrder) (line : SOLine) (k : JStr) :
    ∀ (sns : List JStr) (idx : SerialIndex),
    alistLookup k (sns.foldl (indexInsertSerial o line) idx) =
      firstSome (alistLookup k idx)
        (alistLookup k ((sns.filter (fun s => !s.isEmpty)).map
          (fun s =>
            (normalizeSerial s, mkIndexRecord o line (normalizeSerial s)))))
  | [], idx => by
      simp only [List.foldl_nil, List.filter_nil, List.map_nil]
      cases h : alistLookup k idx <;> simp [firstSome, alistLookup]
  | s :: sns, idx => by
      rw [List.foldl_cons,
        lookup_foldl_indexInsert o line k sns (indexInsertSerial o line idx s)]
      by_cases he : s.isEmpty = true
      · have hstep : indexInsertSerial o line idx s = idx := by
          unfold indexInsertSerial
          rw [if_pos he]
        rw [hstep, List.filter_cons_of_neg (by simp [he])]
      · have hfil : (s :: sns).filter (fun s => !s.isEmpty) =
            s :: sns.filter (fun s => !s.isEmpty) :=
          List.filter_cons_of_pos (by simp [he])
        rw [hfil, List.map_cons]
        cases hl : alistLookup (normalizeSerial s) idx with
        | some w =>
          have hstep : indexInsertSerial o line idx s = idx := by
            unfold indexInsertSerial
            rw [if_neg he]
            simp only [hl]
          rw [hstep]
          by_cases hk : normalizeSerial s = k
          · subst hk
            rw [hl]
            rfl
          · have hskip :
                alistLookup k
                  ((normalizeSerial s,
                      mkIndexRecord o line (normalizeSerial s)) ::
                    (sns.filter (fun s => !s.isEmpty)).map
                      (fun s =>
                        (normalizeSerial s,
                          mkIndexRecord o line (normalizeSerial s)))) =
                alistLookup k
                  ((sns.filter (fun s => !s.isEmpty)).map
                    (fun s =>
                      (normalizeSerial s,
                        mkIndexRecord o line (normalizeSerial s)))) := by
              simp [alistLookup, hk]
            rw [hskip]
        | none =>
          have hstep : indexInsertSerial o line idx s =
              idx ++ [(normalizeSerial s,
                mkIndexRecord o line (normalizeSerial s))] := by
            unfold indexInsertSerial
            rw [if_neg he]
            simp only [hl]
          rw [hstep, alistLookup_append_firstSome, firstSome_assoc]
          have hsec :
              firstSome
                (alistLookup k
                  [(normalizeSerial s, mkIndexRecord o line (normalizeSerial s))])
                (alistLookup k
                  ((sns.filter (fun s => !s.isEmpty)).map
                    (fun s =>
                      (normalizeSerial s,
                        mkIndexRecord o line (normalizeSerial s))))) =
              alistLookup k
                ((normalizeSerial s, mkIndexRecord o line (normalizeSerial s)) ::
                  (sns.filter (fun s => !s.isEmpty)).map
                    (fun s =>
                      (normalizeSerial s,
                        mkIndexRecord o line (normalizeSerial s)))) := by
            by_cases hk : normalizeSerial s = k
            · simp [alistLookup, hk, firstSome]
            · simp [alistLookup, hk, firstSome]
          rw [hsec]

theorem lookup_indexLineStep (o : SalesOrder) (line : SOLine)
    (idx : SerialIndex) (k : JStr) :
    alistLookup k (indexLineStep o idx line) =
      firstSome (alistLookup k idx) (alistLookup k (lineSerialHits o line)) := by
  unfold indexLineStep lineSerialHits
  cases hs : line.serialNumbers with
  | none =>
    simp only [hs]
    cases h : alistLookup k idx <;> simp [firstSome, alistLookup]
  | some sns =>
    simp only [hs]
    exact lookup_foldl_indexInsert o line k sns idx

theorem lookup_foldl_lineStep (o : SalesOrder) (k : JStr) :
    ∀ (ls : List SOLine) (idx : SerialIndex),
    alistLookup k (ls.foldl (indexLineStep o) idx) =
      firstSome (alistLookup k idx)
        (alistLookup k ((ls.map (lineSerialHits o)).flatten))
  | [], idx => by
      simp only [List.foldl_nil, List.map_nil, List.flatten_nil]
      cases h : alistLookup k idx <;> simp [firstSome, alistLookup]
  | l :: ls, idx => by
      rw [List.foldl_cons, lookup_foldl_lineStep o k ls (indexLineStep o idx l),
        lookup_indexLineStep, firstSome_assoc, List.map_cons, List.flatten_cons,
        alistLookup_append_firstSome]

theorem lookup_extractFromLines (lines : Option (List SOLine)) (o : SalesOrder)
    (idx : SerialIndex) (k : JStr) :
    alistLookup k (extractFromLines lines o idx) =
      firstSome (alistLookup k idx) (alistLookup k (linesSerialHits o lines)) :=
  lookup_foldl_lineStep o k (lines.getD []) idx

theorem lookup_orderPass (o : SalesOrder) (idx : SerialIndex) (k : JStr) :
    alistLookup k
      (extractFromLines o.lines o
        (extractFromLines o.pickLines o
          (extractFromLines o.packLines o idx))) =
      firstSome (alistLookup k idx) (alistLookup k (orderSerialHits o)) := by
  rw [lookup_extractFromLines, lookup_extractFromLines, lookup_extractFromLines,
    firstSome_assoc, firstSome_assoc]
  unfold orderSerialHits
  rw [alistLookup_append_firstSome, alistLookup_append_firstSome,
    firstSome_assoc]

theorem lookup_foldl_orders (k : JStr) :
    ∀ (orders : List SalesOrder) (idx : SerialIndex),
    alistLookup k
      (orders.foldl
        (fun idx o =>
          extractFromLines o.lines o
            (extractFromLines o.pickLines o
              (extractFromLines o.packLines o idx))) idx) =
      firstSome (alistLookup k idx) (alistLookup k (processingHits orders))
  | [], idx => by
      simp only [List.foldl_nil, processingHits, List.map_nil,
        List.flatten_nil]
      cases h : alistLookup k idx <;> simp [firstSome, alistLookup]
  | o :: orders, idx => by
      rw [List.foldl_cons, lookup_foldl_orders k orders _, lookup_orderPass,
        firstSome_assoc]
      unfold processingHits
      rw [List.map_cons, List.flatten_cons, alistLookup_append_firstSome]

theorem buildSerialIndexFromOrders_lookup (orders : List SalesOrder)
    (k : JStr) :
    alistLookup k (buildSerialIndexFromOrders orders) =
      alistLookup k (processingHits orders) := by
  unfold buildSerialIndexFromOrders
  rw [lookup_foldl_orders]
  rfl

/-- C1: in the order-based serial index, the entry retained for every key is
the one created for the FIRST occurrence of that serial in processing order
— orders in pagination order, and inside one order pack lines before pick
lines before raw order lines: the lookup over the built index coincides, at
every key, with the first-binding lookup over the flattened processing-order
occurrence list `processingHits`, so no later occurrence (same order or a
later order) ever overwrites an entry, and order dates play no role in the
conflict resolution. -/
theorem buildSerialIndex_first_writer_wins (statusOpt : Option JStr)
    (limit : Option Nat) (fetchPages : JStr → List (List SalesOrder))
    (k : JStr) :
    alistLookup k (buildSerialIndex statusOpt limit fetchPages) =
      alistLookup k
        (processingHits
          (collectOrdersLoop limit (fetchPages (buildStatus statusOpt)) [])) :=
  buildSerialIndexFromOrders_lookup _ k

theorem alistLookup_mem (k : JStr) (v : β) (l : List (JStr × β))
    (h : alistLookup k l = some v) : (k, v) ∈ l := by
  induction l with
  | nil => simp [alistLookup] at h
  | cons e rest ih =>
    unfold alistLookup at h
    by_cases hk : e.1 = k
    · rw [if_pos hk] at h
      obtain ⟨e1, e2⟩ := e
      simp only at hk
      subst hk
      injection h with h2
      subst h2
      exact List.mem_cons_self _ _
    · rw [if_neg hk] at h
      exact List.mem_cons_of_mem _ (ih h)

theorem processingHits_key_normalized (orders : List SalesOrder)
    (h : JStr × SerialIndexRecord) (hm : h ∈ processingHits orders) :
    ∃ s, h.1 = normalizeSerial s := by
  unfold processingHits at hm
  rw [List.mem_flatten] at hm
  obtain ⟨l, hl, hhl⟩ := hm
  rw [List.mem_map] at hl
  obtain ⟨o, ho, rfl⟩ := hl
  have key : ∀ (lines : Option (List SOLine)), h ∈ linesSerialHits o lines →
      ∃ s, h.1 = normalizeSerial s := by
    intro lines hmem
    unfold linesSerialHits at hmem
    rw [List.mem_flatten] at hmem
    obtain ⟨l2, hl2, hhl2⟩ := hmem
    rw [List.mem_map] at hl2
    obtain ⟨line, hline, rfl⟩ := hl2
    unfold lineSerialHits at hhl2
    cases hs : line.serialNumbers with
    | none => simp [hs] at hhl2
    | some sns =>
      simp only [hs] at hhl2
      rw [List.mem_map] at hhl2
      obtain ⟨s, hsmem, rfl⟩ := hhl2
      exact ⟨s, rfl⟩
  unfold orderSerialHits at hhl
  rw [List.mem_append, List.mem_append] at hhl
  rcases hhl with (h1 | h2) | h3
  · exact key o.packLines h1
  · exact key o.pickLines h2
  · exact key o.lines h3

/-- C5: serial lookups are invariant under trim-and-uppercase normalization.
Every key of a built order-based serial index is fixed by the normalization
(it equals its own trimmed upper-cased form), and `searchSerial` returns the
same result for any two query strings with the same normalized form, over
any fixed cache/index state. -/
theorem serial_normalization_invariance :
    (∀ (orders : List SalesOrder) (k : JStr) (r : SerialIndexRecord),
      alistLookup k (buildSerialIndexFromOrders orders) = some r →
      normalizeSerial k = k) ∧
    (∀ (c : CacheState SerialIndex) (now : Nat)
      (buildResult : Except JStr SerialIndex) (d : Bool) (s t : JStr),
      normalizeSerial s = normalizeSerial t →
      searchSerial c now buildResult d s = searchSerial c now buildResult d t)
    := by
  constructor
  · intro orders k r hkr
    rw [buildSerialIndexFromOrders_lookup] at hkr
    have hmem : (k, r) ∈ processingHits orders := alistLookup_mem k r _ hkr
    obtain ⟨s, hs⟩ := processingHits_key_normalized orders (k, r) hmem
    simp only at hs
    rw [hs]
    exact normalizeSerial_idem s
  · intro c now b d s t hst
    simp only [searchSerial, searchSerialLookup, hst]

/-- the string with code points of a space-padded lowercase serial. -/
def wsAbc : JStr :=
  [32, 97, 98, 99, 49, 50, 51, 32]

/-- the string `ABC123`. -/
def wABC : JStr :=
  [65, 66, 67, 49, 50, 51]

/-- C5 witness: a concrete index key fixed by normalization, and a concrete
pair of queries differing only in case and padding that get the same
search result. -/
theorem serial_normalization_invariance_witness :
    alistLookup [65] (buildSerialIndexFromOrders [sampleOrderA]) =
      some ⟨[65], [1], [1], [1], [3], none⟩ ∧
    normalizeSerial [65] = [65] ∧
    normalizeSerial wsAbc = normalizeSerial wABC ∧
    searchSerial emptyCache 0 (.ok []) false wsAbc =
      searchSerial emptyCache 0 (.ok []) false wABC := by
  refine ⟨by decide, ?_, by decide, ?_⟩
  · exact serial_normalization_invariance.1 [sampleOrderA] [65]
      ⟨[65], [1], [1], [1], [3], none⟩ (by decide)
  · exact serial_normalization_invariance.2 emptyCache 0 (.ok []) false
      wsAbc wABC (by decide)

/-- the occurrence list of one line for `getSalesOrderSerials`: the raw
(unnormalized) non-falsy serials, each with the line's product and the
source tag. -/
def soLineHits (source : JStr) (line : SOLine) : List (JStr × JStr × JStr) :=
  match line.serialNumbers with
  | none => []
  | some sns =>
      (sns.filter (fun s => !s.isEmpty)).map
        (fun s => (s, line.productId, source))

/-- the occurrence list of one optional line array for
`getSalesOrderSerials`. -/
def soLinesHits (lines : Option (List SOLine)) (source : JStr) :
    List (JStr × JStr × JStr) :=
  ((lines.getD []).map (soLineHits source)).flatten

/-- every raw serial occurrence of one order, in processing order: pack
lines, then pick lines, then raw order lines. -/
def soHits (o : SalesOrder) : List (JStr × JStr × JStr) :=
  soLinesHits o.packLines srcPack ++ soLinesHits o.pickLines srcPick ++
    soLinesHits o.lines srcOrder

/-- the effect of a batch of occurrences on the entry stored under key `k`:
the first occurrence of `k` creates the record, every later one appends its
source tag. -/
def applyHits (k : JStr) (prev : Option OrderSerialRecord)
    (hits : List (JStr × JStr × JStr)) : Option OrderSerialRecord :=
  hits.foldl
    (fun acc h =>
      if h.1 = k then
        match acc with
        | some r => some ⟨r.serial, r.productId, r.sources ++ [h.2.2]⟩
        | none => some ⟨k, h.2.1, [h.2.2]⟩
      else acc) prev

theorem applyHits_append (k : JStr) (prev : Option OrderSerialRecord)
    (h1 h2 : List (JStr × JStr × JStr)) :
    applyHits k prev (h1 ++ h2) = applyHits k (applyHits k prev h1) h2 := by
  unfold applyHits
  rw [List.foldl_append]

theorem lookup_soMapPush_self (k src : JStr) :
    ∀ (m : OrderSerialMap),
    alistLookup k (soMapPush k src m) =
      (alistLookup k m).map
        (fun r => ⟨r.serial, r.productId, r.sources ++ [src]⟩)
  | [] => rfl
  | e :: rest => by
      unfold soMapPush
      by_cases he : e.1 = k
      · rw [if_pos he]
        simp [alistLookup, he]
      · rw [if_neg he]
        simp only [alistLookup, if_neg he]
        exact lookup_soMapPush_self k src rest

theorem lookup_soMapPush_other (k k2 src : JStr) (hne : k2 ≠ k) :
    ∀ (m : OrderSerialMap),
    alistLookup k (soMapPush k2 src m) = alistLookup k m
  | [] => rfl
  | e :: rest => by
      unfold soMapPush
      by_cases he : e.1 = k2
      · rw [if_pos he]
        have hek : ¬ e.1 = k := by
          rw [he]
          exact hne
        simp [alistLookup, hek]
      · rw [if_neg he]
        unfold alistLookup
        by_cases hk : e.1 = k
        · rw [if_pos hk, if_pos hk]
        · rw [if_neg hk, if_neg hk]
          exact lookup_soMapPush_other k k2 src hne rest

theorem lookup_soInsertSerial (src : JStr) (line : SOLine)
    (m : OrderSerialMap) (s k : JStr) (hs : s.isEmpty = false) :
    alistLookup k (soInsertSerial src line m s) =
      if s = k then
        match alistLookup k m with
        | some r => some ⟨r.serial, r.productId, r.sources ++ [src]⟩
        | none => some ⟨k, line.productId, [src]⟩
      else alistLookup k m := by
  unfold soInsertSerial
  rw [if_neg (by simp [hs])]
  cases hl : alistLookup s m with
  | some w =>
    simp only [hl]
    by_cases hk : s = k
    · subst hk
      rw [if_pos rfl, lookup_soMapPush_self, hl]
      rfl
    · rw [if_neg hk, lookup_soMapPush_other k s src hk]
  | none =>
    simp only [hl]
    rw [alistLookup_append_firstSome]
    by_cases hk : s = k
    · subst hk
      rw [hl, if_pos rfl]
      simp [alistLookup, firstSome]
    · rw [if_neg hk]
      have : alistLookup k [(s, (⟨s, line.productId, [src]⟩ :
          OrderSerialRecord))] = none := by
        simp [alistLookup, hk]
      rw [this]
      cases hm : alistLookup k m <;> rfl

theorem applyHits_cons (k : JStr) (prev : Option OrderSerialRecord)
    (h : JStr × JStr × JStr) (t : List (JStr × JStr × JStr)) :
    applyHits k prev (h :: t) =
      applyHits k
        (if h.1 = k then
          match prev with
          | some r => some ⟨r.serial, r.productId, r.sources ++ [h.2.2]⟩
          | none => some ⟨k, h.2.1, [h.2.2]⟩
        else prev) t := rfl

theorem lookup_foldl_soInsert (src : JStr) (line : SOLine) (k : JStr) :
    ∀ (sns : List JStr) (m : OrderSerialMap),
    alistLookup k (sns.foldl (soInsertSerial src line) m) =
      applyHits k (alistLookup k m)
        ((sns.filter (fun s => !s.isEmpty)).map
          (fun s => (s, line.productId, src)))
  | [], m => rfl
  | s :: sns, m => by
      rw [List.foldl_cons,
        lookup_foldl_soInsert src line k sns (soInsertSerial src line m s)]
      by_cases he : s.isEmpty = true
      · have hstep : soInsertSerial src line m s = m := by
          unfold soInsertSerial
          rw [if_pos he]
        rw [hstep, List.filter_cons_of_neg (by simp [he])]
      · have hsf : s.isEmpty = false := by
          cases h2 : s.isEmpty
          · rfl
          · exact absurd h2 he
        rw [List.filter_cons_of_pos (by simp [hsf]), List.map_cons,
          applyHits_cons,
          lookup_soInsertSerial src line m s k hsf]

theorem lookup_soLineStep (src : JStr) (line : SOLine) (m : OrderSerialMap)
    (k : JStr) :
    alistLookup k (soLineStep src m line) =
      applyHits k (alistLookup k m) (soLineHits src line) := by
  unfold soLineStep soLineHits
  cases hs : line.serialNumbers with
  | none => simp only [hs]; rfl
  | some sns =>
    simp only [hs]
    exact lookup_foldl_soInsert src line k sns m

theorem lookup_foldl_soLineStep (src : JStr) (k : JStr) :
    ∀ (ls : List SOLine) (m : OrderSerialMap),
    alistLookup k (ls.foldl (soLineStep src) m) =
      applyHits k (alistLookup k m) ((ls.map (soLineHits src)).flatten)
  | [], m => rfl
  | l :: ls, m => by
      rw [List.foldl_cons, lookup_foldl_soLineStep src k ls (soLineStep src m l),
        lookup_soLineStep, List.map_cons, List.flatten_cons, applyHits_append]

theorem lookup_soExtractSerials (lines : Option (List SOLine)) (src : JStr)
    (m : OrderSerialMap) (k : JStr) :
    alistLookup k (soExtractSerials lines src m) =
      applyHits k (alistLookup k m) (soLinesHits lines src) :=
  lookup_foldl_soLineStep src k (lines.getD []) m

theorem lookup_soSerialMap (o : SalesOrder) (k : JStr) :
    alistLookup k (soSerialMap o) = applyHits k none (soHits o) := by
  unfold soSerialMap soHits
  rw [lookup_soExtractSerials, lookup_soExtractSerials,
    lookup_soExtractSerials, applyHits_append, applyHits_append]
  rfl

theorem applyHits_some (k : JStr) (r : OrderSerialRecord) :
    ∀ (hits : List (JStr × JStr × JStr)),
    applyHits k (some r) hits =
      some ⟨r.serial, r.productId,
        r.sources ++ (hits.filter (fun h => h.1 = k)).map (fun h => h.2.2)⟩
  | [] => by simp [applyHits]
  | h :: t => by
      rw [applyHits_cons]
      by_cases hk : h.1 = k
      · rw [if_pos hk, applyHits_some k _ t,
          List.filter_cons_of_pos (by simp [hk]), List.map_cons]
        simp
      · rw [if_neg hk, applyHits_some k r t,
          List.filter_cons_of_neg (by simp [hk])]

theorem applyHits_none (k : JStr) :
    ∀ (hits : List (JStr × JStr × JStr)),
    applyHits k none hits =
      match hits.filter (fun h => h.1 = k) with
      | [] => none
      | h :: t => some ⟨k, h.2.1, h.2.2 :: t.map (fun x => x.2.2)⟩
  | [] => rfl
  | h :: t => by
      rw [applyHits_cons]
      by_cases hk : h.1 = k
      · rw [if_pos hk, applyHits_some k _ t,
          List.filter_cons_of_pos (by simp [hk])]
        simp
      · rw [if_neg hk, applyHits_none k t,
          List.filter_cons_of_neg (by simp [hk])]

/-- claim-side description of one record of `getSalesOrderSerials`: among
the raw occurrences of the EXACT string `s` (no normalization), the first
one — earliest source, pack before pick before order lines — provides the
product id and the first listed source, and every occurrence contributes
one source tag in processing order; no occurrence at all means no record. -/
def specOrderSerialRecord (o : SalesOrder) (s : JStr) :
    Option OrderSerialRecord :=
  match (soHits o).filter (fun h => h.1 = s) with
  | [] => none
  | h :: t => some ⟨s, h.2.1, h.2.2 :: t.map (fun x => x.2.2)⟩

/-- C10: `getSalesOrderSerials` deduplicates by the raw serial string — for
every exact string `s`, the stored record is exactly the one the claim-side
`specOrderSerialRecord` describes (productId and first source from the
earliest occurrence of that exact string, later occurrences appending their
source tags), so two serials differing only in case or padding live under
two distinct keys with two distinct records; and the returned `serials`
array is precisely the map's records in insertion order. -/
theorem getSalesOrderSerials_raw_first_source (o : SalesOrder) (s : JStr) :
    alistLookup s (soSerialMap o) = specOrderSerialRecord o s ∧
    (getSalesOrderSerials o).serials = (soSerialMap o).map (fun e => e.2) := by
  refine ⟨?_, rfl⟩
  rw [lookup_soSerialMap, applyHits_none]
  rfl
